import Mathlib

/-!
Verification of the RANGAN music-generation script (src/RANGAN.py).

The script is a linear pipeline: scan a MIDI corpus into a flat list of
string tokens (get_notes), build an integer vocabulary over the distinct
tokens, window the token stream into fixed-length normalized sequences
(prepare_sequences), run an adversarial training loop, then sample the
generator and decode its numeric output back into MIDI events
(generate / create_midi).

This file gives a shallow embedding of the pure data transformations of
that pipeline and proves the specification claims about them.  Machine
floats are modelled by exact rationals (ℚ); Python's int() truncation
toward zero is modelled by pyInt.
-/

namespace RANGAN

/-- Python int() applied to a float: truncation toward zero.
For nonnegative arguments this is the floor, for negative ones the
ceiling. -/
def pyInt (q : ℚ) : ℤ := if 0 ≤ q then ⌊q⌋ else ⌈q⌉

/-- The normalization applied by prepare_sequences (RANGAN.py line 75):
network_input = (network_input - float(n_vocab)/2) / (float(n_vocab)/2).
Maps an integer token code k to a value in [-1, 1]. -/
def normalize (n_vocab : ℕ) (k : ℕ) : ℚ :=
  ((k : ℚ) - (n_vocab : ℚ) / 2) / ((n_vocab : ℚ) / 2)

/-- The denormalization applied by generate (RANGAN.py line 266):
pred_notes = [x * 242 + 242 for x in predictions[0]]. -/
def denorm (x : ℚ) : ℚ := x * 242 + 242

/-- The dictionary lookup int_to_note built by generate (RANGAN.py
line 260): int_to_note = dict((number, note) for number, note in
enumerate(pitchnames)).  Its keys are exactly 0 .. len(pitchnames) - 1;
looking up any other integer raises KeyError, modelled as none. -/
def int_to_note (pitchnames : List String) (k : ℤ) : Option String :=
  if k < 0 then none else pitchnames[k.toNat]?

/-- The decoding of one generator output x by generate (RANGAN.py
lines 266-267): int_to_note[int(x * 242 + 242)]. -/
def pred_note (pitchnames : List String) (x : ℚ) : Option String :=
  int_to_note pitchnames (pyInt (denorm x))

/-- The full decoding of one encoded token code, as generate applies it
to a value normalized by prepare_sequences: int(x * 242 + 242) for
x = (k - n_vocab/2) / (n_vocab/2). -/
def decode_code (n_vocab : ℕ) (k : ℕ) : ℤ := pyInt (denorm (normalize n_vocab k))

/-- pitchnames = sorted(set(item for item in notes)) (RANGAN.py lines 54
and 259).  Python's sorted over the distinct tokens is modelled by
insertion sort of the deduplicated list under the string order; since the
result is a duplicate-free ≤-sorted enumeration of the same set, it is
extensionally the same list Python's stable sort produces. -/
def pitchnames (notes : List String) : List String :=
  (notes.dedup).insertionSort (· ≤ ·)

/-- n_vocab = len(set(notes)) as computed in GAN.train (RANGAN.py
line 209). -/
def n_vocab (notes : List String) : ℕ := notes.dedup.length

/-- note_to_int = dict((note, number) for number, note in
enumerate(pitchnames)) (RANGAN.py line 57): each token is mapped to its
position in the sorted list of distinct tokens. -/
def note_to_int (notes : List String) (t : String) : ℕ :=
  (pitchnames notes).indexOf t

/-- A music21 stream element as seen by the loop of get_notes (RANGAN.py
lines 39-44): a Note (carrying str(element.pitch)), a Chord (carrying
element.normalOrder, a list of pitch-class integers), or any other
element type, which the loop ignores. -/
inductive MElement where
  | note (pitch : String)
  | chord (normalOrder : List ℕ)
  | other
deriving DecidableEq

/-- The token an element contributes to the notes list, if any:
str(element.pitch) for a Note, the dot-joined normal order for a Chord,
nothing otherwise (RANGAN.py lines 40-43). -/
def tokenOf : MElement → Option String
  | MElement.note p => some p
  | MElement.chord no => some (String.intercalate "." (no.map toString))
  | MElement.other => none

/-- A parsed MIDI file as get_notes sees it (RANGAN.py lines 31-37):
partitioned is some elements when s2 = instrument.partitionByInstrument(midi);
s2.parts[0].recurse() succeeds, and none when that step raises (the bare
except branch); flatNotes is midi.flat.notes, the fallback stream. -/
structure MidiFile where
  partitioned : Option (List MElement)
  flatNotes : List MElement
deriving DecidableEq

/-- The outcome of converter.parse(file) (RANGAN.py line 27): either a
parsed MidiFile or an exception, which nothing in get_notes catches. -/
inductive ParsedFile where
  | ok (m : MidiFile)
  | parseError
deriving DecidableEq

/-- notes_to_parse as chosen by the try/except of RANGAN.py lines 33-37:
the first instrument part when partitioning succeeded, the flat note
stream otherwise. -/
def notes_to_parse (m : MidiFile) : List MElement :=
  match m.partitioned with
  | some es => es
  | none => m.flatNotes

/-- One step of the inner element loop of get_notes (RANGAN.py lines
39-44): append the pitch string of a Note, the dot-joined normal order of
a Chord, and nothing for any other element. -/
def processElement (acc : List String) (e : MElement) : List String :=
  match e with
  | MElement.note p => acc ++ [p]
  | MElement.chord no => acc ++ [String.intercalate "." (no.map toString)]
  | MElement.other => acc

/-- The inner loop of get_notes over one file's elements. -/
def processStream (acc : List String) (es : List MElement) : List String :=
  es.foldl processElement acc

/-- The file loop of get_notes (RANGAN.py lines 25-44), threading the
accumulated notes list; an unparseable file raises out of the whole
function, discarding the run. -/
def get_notesAux (acc : List String) : List ParsedFile → Except Unit (List String)
  | [] => Except.ok acc
  | ParsedFile.parseError :: _ => Except.error ()
  | ParsedFile.ok m :: rest => get_notesAux (processStream acc (notes_to_parse m)) rest

/-- get_notes (RANGAN.py lines 20-45) over the list of files the glob
produced: the flat list of string tokens, or the uncaught exception of
the first unparseable file. -/
def get_notes (files : List ParsedFile) : Except Unit (List String) :=
  get_notesAux [] files

/-- The elements get_notes traverses, in traversal order, when every file
parses: each file contributes its notes_to_parse stream. -/
def allElements (files : List ParsedFile) : List MElement :=
  files.flatMap fun f =>
    match f with
    | ParsedFile.ok m => notes_to_parse m
    | ParsedFile.parseError => []

/-- The window loop of prepare_sequences (RANGAN.py lines 63-66) before
normalization: for i in range(0, len(notes) - sequence_length, 1), the
i-th input window is [note_to_int[char] for char in notes[i:i+sequence_length]].
The sequence_length parameter is the module-level global named length,
200 by default. -/
def network_input_raw (sequence_length : ℕ) (notes : List String) : List (List ℕ) :=
  (List.range (notes.length - sequence_length)).map fun i =>
    ((notes.drop i).take sequence_length).map (note_to_int notes)

/-- The output side of the window loop (RANGAN.py lines 65 and 67): the
i-th output is note_to_int[notes[i + sequence_length]]. -/
def network_output_raw (sequence_length : ℕ) (notes : List String) : List ℕ :=
  (List.range (notes.length - sequence_length)).map fun i =>
    note_to_int notes (notes.getD (i + sequence_length) "")

/-- network_input after the normalization of RANGAN.py line 75. -/
def network_input (sequence_length : ℕ) (notes : List String) (v : ℕ) :
    List (List ℚ) :=
  (network_input_raw sequence_length notes).map fun w => w.map (normalize v)

/-- The observable stages of a run of GAN.train (RANGAN.py lines
205-249): the corpus scan (get_notes, line 208), the vocabulary build
(n_vocab = len(set(notes)), line 209), the sequence windowing
(prepare_sequences, line 210), one adversarial iteration per epoch of
the for-loop (lines 217-246), the sampling/decoding (self.generate,
line 248) and the loss plot (self.plot_loss, line 249). -/
inductive Stage where
  | corpusScan
  | vocabBuild
  | windowing
  | trainEpoch (epoch : ℕ)
  | sampling
  | lossPlot
deriving DecidableEq

/-- The stage trace of one call of GAN.train(epochs): the method body is
straight-line code around a single for epoch in range(epochs) loop, so the
trace is the three preparation stages, the epochs in order, then the
sampling and the plot. -/
def train_trace (epochs : ℕ) : List Stage :=
  [Stage.corpusScan, Stage.vocabBuild, Stage.windowing]
    ++ (List.range epochs).map Stage.trainEpoch
    ++ [Stage.sampling, Stage.lossPlot]

/-- A music21 object appended to output_notes by create_midi (RANGAN.py
lines 88-106): note.Note(pattern) with a pitch-name string, or
chord.Chord over note.Note(int) objects with integer pitches. -/
inductive OutNote where
  | single (pitch : String)
  | chordOf (pitches : List ℕ)
deriving DecidableEq

/-- Python str.split('.') on the character list of a string:
"".split('.') is [""], and each '.' closes the current (possibly empty)
group. -/
def splitDots : List Char → List (List Char)
  | [] => [[]]
  | c :: rest =>
    if c = '.' then [] :: splitDots rest
    else
      match splitDots rest with
      | [] => [[c]]
      | g :: gs => (c :: g) :: gs

/-- The numeric value of a decimal digit character. -/
def digitVal (c : Char) : ℕ := c.toNat - 48

/-- Python int(s) on the pieces produced by split('.'): succeeds on a
nonempty all-digit string (the only well-defined case reachable here,
since every piece of a normal-order token is a decimal numeral) and
raises ValueError otherwise, in particular on the empty string. -/
def pyIntOfDigits (l : List Char) : Except Unit ℕ :=
  if l ≠ [] ∧ l.all Char.isDigit then
    Except.ok (l.foldl (fun a c => 10 * a + digitVal c) 0)
  else Except.error ()

/-- The inner chord loop of create_midi (RANGAN.py lines 94-97): one
note.Note(int(current_note)) per dot-separated piece, collected in
order; a ValueError in int() aborts the whole call. -/
def chordNotes : List (List Char) → Except Unit (List ℕ)
  | [] => Except.ok []
  | piece :: rest =>
    match pyIntOfDigits piece with
    | Except.error e => Except.error e
    | Except.ok v =>
      match chordNotes rest with
      | Except.error e => Except.error e
      | Except.ok vs => Except.ok (v :: vs)

/-- The body of the item loop of create_midi (RANGAN.py lines 88-106) on
one item's characters: pattern = item[0], the one-character string of the
first character (IndexError on an empty item); the chord branch is taken
when pattern contains '.' or satisfies pattern.isdigit(), and builds
chord.Chord over the int() of every dot-separated piece of pattern;
otherwise a single note.Note(pattern) is built. -/
def decodeChars : List Char → Except Unit OutNote
  | [] => Except.error ()
  | c :: _ =>
    if ('.' ∈ [c]) ∨ ([c] ≠ [] ∧ [c].all Char.isDigit) then
      match chordNotes (splitDots [c]) with
      | Except.error e => Except.error e
      | Except.ok vals => Except.ok (OutNote.chordOf vals)
    else Except.ok (OutNote.single (String.mk [c]))

/-- One item of prediction_output as decoded by the loop body of
create_midi. -/
def decodeItem (item : String) : Except Unit OutNote := decodeChars item.data

/-- The item loop of create_midi (RANGAN.py lines 84-109): each produced
note or chord is appended to output_notes together with the current
offset, and offset increases by offset_increment after every item (the
module global offset_increment defaults to 0.5 and is a parameter
here). -/
def create_midiAux (inc : ℚ) (offset : ℚ) (acc : List (OutNote × ℚ)) :
    List String → Except Unit (List (OutNote × ℚ))
  | [] => Except.ok acc
  | item :: rest =>
    match decodeItem item with
    | Except.error e => Except.error e
    | Except.ok o => create_midiAux inc (offset + inc) (acc ++ [(o, offset)]) rest

/-- create_midi (RANGAN.py lines 81-112) up to the final stream write:
the list of note/chord objects with their offsets. -/
def create_midi (inc : ℚ) (pred : List String) :
    Except Unit (List (OutNote × ℚ)) :=
  create_midiAux inc 0 [] pred

end RANGAN

namespace RANGAN

theorem pyInt_of_nonneg {q : ℚ} (h : 0 ≤ q) : pyInt q = ⌊q⌋ := by
  simp [pyInt, h]

theorem pyInt_natCast (n : ℕ) : pyInt (n : ℚ) = (n : ℤ) := by
  rw [pyInt_of_nonneg (by positivity)]
  exact Int.floor_natCast n

/-- C5 (normalization range): for every vocabulary size n_vocab ≥ 1 and
every token index k with 0 ≤ k ≤ n_vocab - 1, the normalized value
(k - n_vocab/2) / (n_vocab/2) computed by prepare_sequences lies in the
closed interval [-1, 1]. -/
theorem normalize_mem_Icc (n_vocab k : ℕ) (h1 : 1 ≤ n_vocab)
    (h2 : k ≤ n_vocab - 1) :
    -1 ≤ normalize n_vocab k ∧ normalize n_vocab k ≤ 1 := by
  have hv : (0 : ℚ) < (n_vocab : ℚ) / 2 := by
    have : (1 : ℚ) ≤ (n_vocab : ℚ) := by exact_mod_cast h1
    linarith
  have hk : (k : ℚ) ≤ (n_vocab : ℚ) - 1 := by
    have hk' : k + 1 ≤ n_vocab := by omega
    have : ((k : ℚ) + 1) ≤ (n_vocab : ℚ) := by exact_mod_cast hk'
    linarith
  constructor
  · rw [normalize, le_div_iff₀ hv]
    have hk0 : (0 : ℚ) ≤ (k : ℚ) := by positivity
    linarith
  · rw [normalize, div_le_iff₀ hv]
    linarith

/-- Witness for C5 at n_vocab = 3, k = 2. -/
theorem normalize_mem_Icc_witness :
    -1 ≤ normalize 3 2 ∧ normalize 3 2 ≤ 1 :=
  normalize_mem_Icc 3 2 (by decide) (by decide)

/-- Counterexample to C2 as stated: at n_vocab = 2, k = 1 (so n_vocab ≥ 1
and k ≤ n_vocab - 1), the denormalization int(x * 242 + 242) applied to
the encoded value (k - n_vocab/2)/(n_vocab/2) yields 242, not k = 1. -/
theorem decode_code_not_round_trip :
    1 ≤ 2 ∧ 1 ≤ 2 - 1 ∧ decode_code 2 1 = 242 ∧ (242 : ℤ) ≠ 1 := by
  refine ⟨by decide, by decide, ?_, by decide⟩
  have h : normalize 2 1 = 0 := by norm_num [normalize]
  have h2 : denorm (normalize 2 1) = 242 := by rw [h]; norm_num [denorm]
  rw [decode_code, h2, pyInt_of_nonneg (by norm_num)]
  norm_num

/-- C2 amended (round trip at the hardcoded vocabulary size): the decode
constants 242 in generate invert the prepare_sequences encoding exactly
when n_vocab = 484: for every token index k ≤ 483, applying
x ↦ int(x * 242 + 242) to (k - 484/2)/(484/2) yields k back. -/
theorem decode_code_round_trip_484 (k : ℕ) (_h : k ≤ 483) :
    decode_code 484 k = (k : ℤ) := by
  have h1 : denorm (normalize 484 k) = (k : ℚ) := by
    rw [normalize, denorm]
    field_simp
    ring
  rw [decode_code, h1, pyInt_natCast]

/-- Witness for the amended C2 at k = 7. -/
theorem decode_code_round_trip_484_witness : decode_code 484 7 = 7 :=
  decode_code_round_trip_484 7 (by decide)

theorem pitchnames_perm (notes : List String) :
    (pitchnames notes).Perm notes.dedup :=
  List.perm_insertionSort _ _

theorem pitchnames_length (notes : List String) :
    (pitchnames notes).length = n_vocab notes :=
  (pitchnames_perm notes).length_eq

theorem mem_pitchnames {notes : List String} {t : String} :
    t ∈ pitchnames notes ↔ t ∈ notes := by
  rw [(pitchnames_perm notes).mem_iff, List.mem_dedup]

/-- Counterexample to C1 as stated: with a training corpus of a single
token (n_vocab = 1 ≥ 1) and generator output 0 (inside the tanh range
(-1, 1)), the lookup int_to_note[int(x * 242 + 242)] asks for key 242
and fails. -/
theorem pred_note_fails_small_vocab :
    1 ≤ n_vocab ["C4"] ∧ (-1 : ℚ) < 0 ∧ (0 : ℚ) < 1 ∧
      pred_note (pitchnames ["C4"]) 0 = none := by
  refine ⟨by decide, by norm_num, by norm_num, ?_⟩
  have hd : denorm 0 = ((242 : ℕ) : ℚ) := by rw [denorm]; norm_num
  rw [pred_note, hd, pyInt_natCast, int_to_note, if_neg (by omega)]
  rfl

/-- C1 amended (token-set closedness for vocabularies of at least 484
tokens): when the training corpus has at least 484 distinct tokens, every
generator output in the tanh range (-1, 1) decodes through
int_to_note[int(x * 242 + 242)] to some token of the training corpus, so
the lookup never fails. -/
theorem pred_note_closed (notes : List String) (hv : 484 ≤ n_vocab notes)
    (x : ℚ) (hx1 : -1 < x) (hx2 : x < 1) :
    ∃ t, pred_note (pitchnames notes) x = some t ∧ t ∈ notes := by
  have h0 : 0 < denorm x := by rw [denorm]; linarith
  have h484 : denorm x < 484 := by rw [denorm]; linarith
  have hfloor0 : 0 ≤ ⌊denorm x⌋ := Int.floor_nonneg.2 h0.le
  have hfloorlt : ⌊denorm x⌋ < 484 := Int.floor_lt.2 (by exact_mod_cast h484)
  have hlen : (⌊denorm x⌋).toNat < (pitchnames notes).length := by
    rw [pitchnames_length]
    omega
  refine ⟨(pitchnames notes).get ⟨(⌊denorm x⌋).toNat, hlen⟩, ?_, ?_⟩
  · rw [pred_note, pyInt_of_nonneg h0.le, int_to_note,
      if_neg (not_lt.2 hfloor0), List.getElem?_eq_getElem hlen]
    simp [List.get_eq_getElem]
  · exact mem_pitchnames.1 (List.get_mem _ _ _)

/-- Witness for the amended C1: a corpus of 484 distinct tokens and
generator output 1/2. -/
theorem pred_note_closed_witness :
    ∃ t,
      pred_note
        (pitchnames ((List.range 484).map fun i => String.mk (List.replicate i 'a')))
        (1 / 2) = some t ∧
      t ∈ (List.range 484).map fun i => String.mk (List.replicate i 'a') := by
  apply pred_note_closed
  · have hinj : Function.Injective fun i => String.mk (List.replicate i 'a') := by
      intro a b h
      have h2 : List.replicate a 'a' = List.replicate b 'a' :=
        congrArg String.data h
      have := congrArg List.length h2
      simpa using this
    have hnd : ((List.range 484).map fun i => String.mk (List.replicate i 'a')).Nodup :=
      List.Nodup.map hinj (List.nodup_range 484)
    rw [n_vocab, List.dedup_eq_self.2 hnd]
    simp
  · norm_num
  · norm_num

theorem processStream_eq (es : List MElement) (acc : List String) :
    processStream acc es = acc ++ es.filterMap tokenOf := by
  induction es generalizing acc with
  | nil => simp [processStream]
  | cons e rest ih =>
    have hstep : processStream acc (e :: rest) =
        processStream (processElement acc e) rest := rfl
    rw [hstep, ih]
    cases e <;> simp [processElement, tokenOf]

theorem get_notesAux_error_iff (files : List ParsedFile) (acc : List String) :
    get_notesAux acc files = Except.error () ↔ ParsedFile.parseError ∈ files := by
  induction files generalizing acc with
  | nil => simp [get_notesAux]
  | cons f rest ih =>
    cases f with
    | parseError => simp [get_notesAux]
    | ok m => simp [get_notesAux, ih]

theorem get_notesAux_ok (files : List ParsedFile) (acc : List String)
    (h : ParsedFile.parseError ∉ files) :
    get_notesAux acc files =
      Except.ok (acc ++ (allElements files).filterMap tokenOf) := by
  induction files generalizing acc with
  | nil => simp [get_notesAux, allElements]
  | cons f rest ih =>
    cases f with
    | parseError => exact absurd (List.mem_cons_self _ _) h
    | ok m =>
      have h' : ParsedFile.parseError ∉ rest := fun hm => h (List.mem_cons_of_mem _ hm)
      have hstep : get_notesAux acc (ParsedFile.ok m :: rest) =
          get_notesAux (processStream acc (notes_to_parse m)) rest := rfl
      rw [hstep, ih _ h', processStream_eq]
      simp [allElements, List.filterMap_append, List.append_assoc]

/-- Counterexample to C3 as stated: a file whose instrument-partitioning
step raises (partitioned = none models the exception inside the try
block) is NOT fatal: the bare except of RANGAN.py lines 33-37 catches it
and falls back to midi.flat.notes, and get_notes succeeds. -/
theorem get_notes_recovers_partition_failure :
    (MidiFile.mk none [MElement.note "C4"]).partitioned = none ∧
      get_notes [ParsedFile.ok (MidiFile.mk none [MElement.note "C4"])] =
        Except.ok ["C4"] :=
  ⟨rfl, rfl⟩

/-- C3 amended: a converter.parse failure is fatal and propagates uncaught
out of get_notes — get_notes raises exactly when some file fails to parse —
but an exception in the instrument-partitioning step is caught by the bare
except and recovered by falling back to midi.flat.notes, so when every
file parses, get_notes succeeds with the tokens of all traversed
elements. -/
theorem get_notes_error_iff (files : List ParsedFile) :
    (get_notes files = Except.error () ↔ ParsedFile.parseError ∈ files) ∧
      (ParsedFile.parseError ∉ files →
        get_notes files = Except.ok ((allElements files).filterMap tokenOf)) := by
  constructor
  · exact get_notesAux_error_iff files []
  · intro h
    have := get_notesAux_ok files [] h
    simpa [get_notes] using this

/-- Witness for the amended C3: a single parseable file whose partition
step failed; get_notes recovers and returns the flat-stream tokens. -/
theorem get_notes_error_iff_witness :
    get_notes [ParsedFile.ok (MidiFile.mk none [MElement.note "E4"])] =
      Except.ok ((allElements [ParsedFile.ok (MidiFile.mk none [MElement.note "E4"])]).filterMap tokenOf) :=
  (get_notes_error_iff [ParsedFile.ok (MidiFile.mk none [MElement.note "E4"])]).2 (by decide)

/-- C6 (token shape): every element of the list returned by get_notes is
either the pitch string of a Note element or the dot-joined normal order
of a Chord element of the traversed streams; other element types
contribute nothing, and the tokens appear in traversal order (the result
is exactly the in-order filterMap of the traversed elements). -/
theorem get_notes_token_shape (files : List ParsedFile) (l : List String)
    (h : get_notes files = Except.ok l) :
    l = (allElements files).filterMap tokenOf ∧
      ∀ t ∈ l,
        (∃ p, MElement.note p ∈ allElements files ∧ t = p) ∨
        (∃ no, MElement.chord no ∈ allElements files ∧
          t = String.intercalate "." (no.map toString)) := by
  have hnp : ParsedFile.parseError ∉ files := by
    intro hmem
    have := (get_notesAux_error_iff files []).2 hmem
    rw [get_notes] at h
    rw [this] at h
    exact Except.noConfusion h
  have hok := get_notesAux_ok files [] hnp
  rw [get_notes, hok] at h
  have hl : l = (allElements files).filterMap tokenOf := by
    simpa using (Except.ok.inj h).symm
  refine ⟨hl, ?_⟩
  intro t ht
  rw [hl] at ht
  obtain ⟨e, he, hte⟩ := List.mem_filterMap.1 ht
  cases e with
  | note p =>
    left
    exact ⟨p, he, by simpa [tokenOf] using hte.symm⟩
  | chord no =>
    right
    exact ⟨no, he, by simpa [tokenOf] using hte.symm⟩
  | other => simp [tokenOf] at hte

/-- Witness for C6: one file with a Note, an ignored element and a Chord;
the token list is exactly the pitch string and the dot-joined normal
order, in traversal order. -/
theorem get_notes_token_shape_witness :
    (["C4", "0.4.7"] : List String) =
      (allElements [ParsedFile.ok (MidiFile.mk
        (some [MElement.note "C4", MElement.other, MElement.chord [0, 4, 7]]) [])]).filterMap tokenOf ∧
      ∀ t ∈ (["C4", "0.4.7"] : List String),
        (∃ p, MElement.note p ∈ allElements [ParsedFile.ok (MidiFile.mk
          (some [MElement.note "C4", MElement.other, MElement.chord [0, 4, 7]]) [])] ∧ t = p) ∨
        (∃ no, MElement.chord no ∈ allElements [ParsedFile.ok (MidiFile.mk
          (some [MElement.note "C4", MElement.other, MElement.chord [0, 4, 7]]) [])] ∧
          t = String.intercalate "." (no.map toString)) :=
  get_notes_token_shape _ _ rfl

/-- C4 (windowing shape): for every notes list longer than the sequence
length, prepare_sequences produces exactly len(notes) - sequence_length
input windows at stride 1; the i-th window has exactly sequence_length
elements, its j-th element is the integer code of notes[i + j] (so the
window encodes the slice notes[i : i + sequence_length]), and the i-th
output is the integer code of notes[i + sequence_length]. -/
theorem prepare_sequences_windowing (sl : ℕ) (notes : List String)
    (_h : sl < notes.length) :
    (network_input_raw sl notes).length = notes.length - sl ∧
      (network_output_raw sl notes).length = notes.length - sl ∧
      ∀ i, i < notes.length - sl →
        ((network_input_raw sl notes).getD i []).length = sl ∧
          (∀ j, j < sl →
            ((network_input_raw sl notes).getD i []).getD j 0 =
              note_to_int notes (notes.getD (i + j) "")) ∧
          (network_output_raw sl notes).getD i 0 =
            note_to_int notes (notes.getD (i + sl) "") := by
  refine ⟨by simp [network_input_raw], by simp [network_output_raw], ?_⟩
  intro i hi
  have hi1 : i < (network_input_raw sl notes).length := by
    simpa [network_input_raw] using hi
  have hwin : (network_input_raw sl notes).getD i [] =
      ((notes.drop i).take sl).map (note_to_int notes) := by
    rw [List.getD_eq_getElem _ _ hi1]
    simp [network_input_raw]
  have hsl : sl ≤ notes.length - i := by omega
  refine ⟨?_, ?_, ?_⟩
  · rw [hwin]
    simp [Nat.min_eq_left hsl]
  · intro j hj
    have hij : i + j < notes.length := by omega
    have hj1 : j < (((notes.drop i).take sl).map (note_to_int notes)).length := by
      simp [Nat.min_eq_left hsl]
      omega
    rw [hwin, List.getD_eq_getElem _ _ hj1, List.getD_eq_getElem _ _ hij]
    simp [List.getElem_take, List.getElem_drop]
  · have hi2 : i < (network_output_raw sl notes).length := by
      simpa [network_output_raw] using hi
    rw [List.getD_eq_getElem _ _ hi2]
    simp [network_output_raw]

/-- Witness for C4 at sequence_length 2 and a four-token corpus: there are
4 - 2 = 2 windows; the element at window 0, position 1 is the code of the
token at index 0 + 1, and output 0 is the code of the token at index
0 + 2. -/
theorem prepare_sequences_windowing_witness :
    (network_input_raw 2 ["b", "a", "c", "a"]).length = 4 - 2 ∧
      ((network_input_raw 2 ["b", "a", "c", "a"]).getD 0 []).getD 1 0 =
        note_to_int ["b", "a", "c", "a"] (["b", "a", "c", "a"].getD (0 + 1) "") ∧
      (network_output_raw 2 ["b", "a", "c", "a"]).getD 0 0 =
        note_to_int ["b", "a", "c", "a"] (["b", "a", "c", "a"].getD (0 + 2) "") := by
  have h := prepare_sequences_windowing 2 ["b", "a", "c", "a"] (by decide)
  exact ⟨h.1, ((h.2.2 0 (by decide)).2.1 1 (by decide)), (h.2.2 0 (by decide)).2.2⟩

theorem pitchnames_nodup (notes : List String) : (pitchnames notes).Nodup :=
  ((pitchnames_perm notes).nodup_iff).2 (List.nodup_dedup notes)

theorem pitchnames_sorted_lt (notes : List String) :
    (pitchnames notes).Sorted (· < ·) :=
  List.Sorted.lt_of_le (List.sorted_insertionSort _ _) (pitchnames_nodup notes)

/-- C7 (vocabulary mapping): note_to_int is a bijection from the distinct
tokens of the corpus onto 0 .. n_vocab - 1 that assigns each token its
rank in the sorted order of distinct tokens (it is strictly monotone),
and the n_vocab computed in train as len(set(notes)) is exactly the size
of the dictionary the mapping enumerates. -/
theorem note_to_int_bijection (notes : List String) :
    n_vocab notes = (pitchnames notes).length ∧
      (∀ t ∈ notes, note_to_int notes t < n_vocab notes) ∧
      (∀ s ∈ notes.dedup, ∀ t ∈ notes.dedup,
        note_to_int notes s = note_to_int notes t → s = t) ∧
      (∀ j, j < n_vocab notes → ∃ t ∈ notes.dedup, note_to_int notes t = j) ∧
      (∀ s ∈ notes.dedup, ∀ t ∈ notes.dedup, s < t →
        note_to_int notes s < note_to_int notes t) := by
  refine ⟨(pitchnames_length notes).symm, ?_, ?_, ?_, ?_⟩
  · intro t ht
    have : t ∈ pitchnames notes := mem_pitchnames.2 ht
    rw [note_to_int, ← pitchnames_length]
    exact List.indexOf_lt_length.2 this
  · intro s hs t ht hst
    have hs' : s ∈ pitchnames notes := mem_pitchnames.2 (List.mem_dedup.1 hs)
    have ht' : t ∈ pitchnames notes := mem_pitchnames.2 (List.mem_dedup.1 ht)
    exact (List.indexOf_inj hs' ht').1 hst
  · intro j hj
    have hj' : j < (pitchnames notes).length := by
      rw [pitchnames_length]; exact hj
    refine ⟨(pitchnames notes).get ⟨j, hj'⟩, ?_, ?_⟩
    · exact List.mem_dedup.2 (mem_pitchnames.1 (List.get_mem _ _ _))
    · rw [note_to_int]
      exact List.get_indexOf (pitchnames_nodup notes) ⟨j, hj'⟩
  · intro s hs t ht hst
    have hs' : s ∈ pitchnames notes := mem_pitchnames.2 (List.mem_dedup.1 hs)
    have ht' : t ∈ pitchnames notes := mem_pitchnames.2 (List.mem_dedup.1 ht)
    by_contra hc
    push_neg at hc
    rcases Nat.lt_or_ge (note_to_int notes t) (note_to_int notes s) with hlt | hge
    · have hgt : t < s := by
        have h1 : (pitchnames notes).get
            ⟨note_to_int notes t, List.indexOf_lt_length.2 ht'⟩ = t :=
          List.indexOf_get _
        have h2 : (pitchnames notes).get
            ⟨note_to_int notes s, List.indexOf_lt_length.2 hs'⟩ = s :=
          List.indexOf_get _
        have := List.Sorted.rel_get_of_lt (pitchnames_sorted_lt notes)
          (show (⟨note_to_int notes t, List.indexOf_lt_length.2 ht'⟩ :
            Fin (pitchnames notes).length) <
            ⟨note_to_int notes s, List.indexOf_lt_length.2 hs'⟩ from hlt)
        rwa [h1, h2] at this
      exact absurd hst (lt_asymm hgt)
    · have heq : note_to_int notes s = note_to_int notes t := le_antisymm hge hc
      have := (List.indexOf_inj hs' ht').1 heq
      rw [this] at hst
      exact lt_irrefl t hst

/-- Witness for C7 at a concrete corpus with a repeated token. -/
theorem note_to_int_bijection_witness :
    n_vocab ["b", "a", "c", "a"] = (pitchnames ["b", "a", "c", "a"]).length ∧
      note_to_int ["b", "a", "c", "a"] "c" < n_vocab ["b", "a", "c", "a"] ∧
      note_to_int ["b", "a", "c", "a"] "a" < note_to_int ["b", "a", "c", "a"] "b" := by
  have h := note_to_int_bijection ["b", "a", "c", "a"]
  refine ⟨h.1, h.2.1 "c" (by decide), ?_⟩
  exact h.2.2.2.2 "a" (by decide) "b" (by decide)
    (by rw [String.lt_iff_toList_lt]; decide)

/-- C8 (pipeline order): every run of train performs the stages in order
— corpus scan, vocabulary build, windowing, the epochs of the training
loop in order, sampling/decoding, loss plot — each of the non-loop stages
exactly once, with sampling and the plot strictly after every epoch. -/
theorem train_pipeline_order (epochs : ℕ) :
    (train_trace epochs).length = epochs + 5 ∧
      (train_trace epochs).count Stage.corpusScan = 1 ∧
      (train_trace epochs).count Stage.vocabBuild = 1 ∧
      (train_trace epochs).count Stage.windowing = 1 ∧
      (train_trace epochs).count Stage.sampling = 1 ∧
      (train_trace epochs).count Stage.lossPlot = 1 ∧
      (train_trace epochs).get? 0 = some Stage.corpusScan ∧
      (train_trace epochs).get? 1 = some Stage.vocabBuild ∧
      (train_trace epochs).get? 2 = some Stage.windowing ∧
      (∀ i, i < epochs →
        (train_trace epochs).get? (i + 3) = some (Stage.trainEpoch i)) ∧
      (train_trace epochs).get? (epochs + 3) = some Stage.sampling ∧
      (train_trace epochs).get? (epochs + 4) = some Stage.lossPlot := by
  have hnot : ∀ s : Stage, (∀ i, s ≠ Stage.trainEpoch i) →
      ((List.range epochs).map Stage.trainEpoch).count s = 0 := by
    intro s hs
    refine List.count_eq_zero.2 ?_
    intro hmem
    obtain ⟨i, _, hi⟩ := List.mem_map.1 hmem
    exact hs i hi.symm
  refine ⟨?_, ?_, ?_, ?_, ?_, ?_, by rfl, by rfl, by rfl, ?_, ?_, ?_⟩
  · simp [train_trace]
  · simp [train_trace, List.count_append, List.count_cons,
      hnot Stage.corpusScan (by intro i h; exact Stage.noConfusion h)]
  · simp [train_trace, List.count_append, List.count_cons,
      hnot Stage.vocabBuild (by intro i h; exact Stage.noConfusion h)]
  · simp [train_trace, List.count_append, List.count_cons,
      hnot Stage.windowing (by intro i h; exact Stage.noConfusion h)]
  · simp [train_trace, List.count_append, List.count_cons,
      hnot Stage.sampling (by intro i h; exact Stage.noConfusion h)]
  · simp [train_trace, List.count_append, List.count_cons,
      hnot Stage.lossPlot (by intro i h; exact Stage.noConfusion h)]
  · intro i hi
    have h3 : (train_trace epochs).get? (i + 3) =
        (((List.range epochs).map Stage.trainEpoch) ++
          [Stage.sampling, Stage.lossPlot]).get? i := rfl
    rw [h3, List.get?_eq_getElem?, List.getElem?_append]
    simp [hi]
  · have h3 : (train_trace epochs).get? (epochs + 3) =
        (((List.range epochs).map Stage.trainEpoch) ++
          [Stage.sampling, Stage.lossPlot]).get? epochs := rfl
    rw [h3, List.get?_eq_getElem?, List.getElem?_append]
    simp
  · have h3 : (train_trace epochs).get? (epochs + 4) =
        (((List.range epochs).map Stage.trainEpoch) ++
          [Stage.sampling, Stage.lossPlot]).get? (epochs + 1) := rfl
    rw [h3, List.get?_eq_getElem?, List.getElem?_append]
    have h4 : epochs + 1 - epochs = 1 := by omega
    simp [h4]

/-- Witness for C8 at epochs = 2. -/
theorem train_pipeline_order_witness :
    (train_trace 2).length = 2 + 5 ∧
      (train_trace 2).get? (1 + 3) = some (Stage.trainEpoch 1) ∧
      (train_trace 2).get? (2 + 3) = some Stage.sampling := by
  have h := train_pipeline_order 2
  exact ⟨h.1, h.2.2.2.2.2.2.2.2.2.1 1 (by decide), h.2.2.2.2.2.2.2.2.2.2.1⟩

/-- C9 (first-character decoding): every item handed to create_midi is
decoded from its first character only; given that the first character is
not '.', the chord branch is taken exactly when the first character is a
decimal digit, every chord built contains exactly one note regardless of
how many dot-separated degrees the full token has, and otherwise a single
note with the first character as its pitch name is built. -/
theorem create_midi_first_char (item : String) (c : Char) (cs : List Char)
    (hdata : item.data = c :: cs) (hdot : c ≠ '.') :
    decodeItem item = decodeChars [c] ∧
      ((∃ d, decodeItem item = Except.ok (OutNote.chordOf d)) ↔ c.isDigit = true) ∧
      (∀ d, decodeItem item = Except.ok (OutNote.chordOf d) → d.length = 1) ∧
      (c.isDigit = false →
        decodeItem item = Except.ok (OutNote.single (String.mk [c]))) := by
  have hstep : decodeItem item = decodeChars (c :: cs) := by
    rw [decodeItem, hdata]
  have hsingle : decodeChars (c :: cs) = decodeChars [c] := rfl
  have hsplit : splitDots [c] = [[c]] := by
    simp [splitDots, hdot]
  by_cases hc : c.isDigit
  · have hcond : (('.' ∈ [c]) ∨ ([c] ≠ [] ∧ [c].all Char.isDigit)) := by
      right
      simp [hc]
    have hchord : decodeChars (c :: cs) = Except.ok (OutNote.chordOf [digitVal c]) := by
      rw [show decodeChars (c :: cs) = decodeChars [c] from rfl]
      rw [decodeChars]
      rw [if_pos hcond, hsplit]
      simp [chordNotes, pyIntOfDigits, hc, digitVal]
    refine ⟨hstep.trans hsingle, ?_, ?_, ?_⟩
    · constructor
      · intro _; exact hc
      · intro _; exact ⟨[digitVal c], hstep.trans hchord⟩
    · intro d hd
      rw [hstep, hchord] at hd
      have h2 : [digitVal c] = d := OutNote.chordOf.inj (Except.ok.inj hd)
      rw [← h2]
      rfl
    · intro hfalse
      rw [hc] at hfalse
      exact Bool.noConfusion hfalse
  · have hcond : ¬ (('.' ∈ [c]) ∨ ([c] ≠ [] ∧ [c].all Char.isDigit)) := by
      push_neg
      constructor
      · simp only [List.mem_singleton]
        exact fun h => hdot h.symm
      · intro _
        simp [hc]
    have hnote : decodeChars (c :: cs) = Except.ok (OutNote.single (String.mk [c])) := by
      rw [show decodeChars (c :: cs) = decodeChars [c] from rfl]
      rw [decodeChars, if_neg hcond]
    refine ⟨hstep.trans hsingle, ?_, ?_, ?_⟩
    · constructor
      · intro ⟨d, hd⟩
        rw [hstep, hnote] at hd
        exact absurd (Except.ok.inj hd) (by intro h2; exact OutNote.noConfusion h2)
      · intro habs
        exact absurd habs (by simp [hc])
    · intro d hd
      rw [hstep, hnote] at hd
      exact OutNote.noConfusion (Except.ok.inj hd)
    · intro _
      exact hstep.trans hnote

/-- Witness for C9: a chord token is decoded from its first character
only, and a pitch token yields a single note on its first character. -/
theorem create_midi_first_char_witness :
    decodeItem "0.4.7" = decodeChars ['0'] ∧
      decodeItem "C4" = Except.ok (OutNote.single (String.mk ['C'])) :=
  ⟨(create_midi_first_char "0.4.7" '0' ['.', '4', '.', '7'] rfl (by decide)).1,
    (create_midi_first_char "C4" 'C' ['4'] rfl (by decide)).2.2.2 (by decide)⟩

theorem create_midiAux_offsets (inc : ℚ) (pred : List String) :
    ∀ offset acc out, create_midiAux inc offset acc pred = Except.ok out →
      ∃ tail, out = acc ++ tail ∧
        ∀ k, k < tail.length →
          (tail.getD k (OutNote.single "", 0)).2 = offset + k * inc := by
  induction pred with
  | nil =>
    intro offset acc out h
    refine ⟨[], ?_, ?_⟩
    · have := Except.ok.inj h
      simp [← this]
    · intro k hk
      simp at hk
  | cons item rest ih =>
    intro offset acc out h
    rw [create_midiAux] at h
    cases hdec : decodeItem item with
    | error e => rw [hdec] at h; exact Except.noConfusion h
    | ok o =>
      rw [hdec] at h
      obtain ⟨tail', htail', hoff'⟩ := ih (offset + inc) (acc ++ [(o, offset)]) out h
      refine ⟨(o, offset) :: tail', by simpa [List.append_assoc] using htail', ?_⟩
      intro k hk
      cases k with
      | zero => simp
      | succ k' =>
        have hk' : k' < tail'.length := by simpa using hk
        have := hoff' k' hk'
        rw [List.getD_cons_succ, this]
        push_cast
        ring

/-- C10 (offset progression): for every prediction list accepted by
create_midi, the k-th note or chord appended to the output stream has
offset exactly k * offset_increment, so for every positive
offset_increment the offsets are strictly increasing and no two output
elements share an offset. -/
theorem create_midi_offsets (inc : ℚ) (pred : List String)
    (out : List (OutNote × ℚ)) (h : create_midi inc pred = Except.ok out) :
    (∀ k, k < out.length → (out.getD k (OutNote.single "", 0)).2 = k * inc) ∧
      (0 < inc → ∀ j k, j < k → k < out.length →
        (out.getD j (OutNote.single "", 0)).2 < (out.getD k (OutNote.single "", 0)).2) := by
  obtain ⟨tail, htail, hoff⟩ := create_midiAux_offsets inc pred 0 [] out h
  have hout : out = tail := by simpa using htail
  have hk : ∀ k, k < out.length → (out.getD k (OutNote.single "", 0)).2 = k * inc := by
    intro k hklen
    rw [hout] at hklen ⊢
    rw [hoff k hklen]
    ring
  refine ⟨hk, ?_⟩
  intro hpos j k hjk hklen
  rw [hk j (lt_trans hjk hklen), hk k hklen]
  have hjq : (j : ℚ) < (k : ℚ) := by exact_mod_cast hjk
  exact mul_lt_mul_of_pos_right hjq hpos

/-- Witness for C10: two items at offset_increment 1/2 receive offsets
0 * (1/2) and 1 * (1/2), and the second is strictly greater. -/
theorem create_midi_offsets_witness :
    (([(OutNote.single (String.mk ['C']), (0 : ℚ)),
        (OutNote.chordOf [0], 0 + 1 / 2)]).getD 1 (OutNote.single "", 0)).2 =
      (1 : ℕ) * (1 / 2 : ℚ) ∧
      (([(OutNote.single (String.mk ['C']), (0 : ℚ)),
          (OutNote.chordOf [0], 0 + 1 / 2)]).getD 0 (OutNote.single "", 0)).2 <
        (([(OutNote.single (String.mk ['C']), (0 : ℚ)),
            (OutNote.chordOf [0], 0 + 1 / 2)]).getD 1 (OutNote.single "", 0)).2 := by
  have h := create_midi_offsets (1 / 2) ["C4", "0.4"]
    [(OutNote.single (String.mk ['C']), (0 : ℚ)), (OutNote.chordOf [0], 0 + 1 / 2)] rfl
  exact ⟨h.1 1 (by decide), h.2 (by norm_num) 0 1 (by decide) (by decide)⟩

end RANGAN
